import Mathlib

set_option maxRecDepth 40000

/-!
Verification of the APXTLM repacker (apx-repack).

This file shallowly embeds the encoder (`ApxTlmWriter` in
`apxtlm-writer.service.ts`), the datalink ingest
(`datalink-repack.service.ts`) and the telemetry ingest
(`telemetry-repack.service.ts`) and proves properties of them.

Modelling conventions:
* JavaScript numbers are modelled by `JsNum`: NaN, signed infinities,
  signed zeros and nonzero finite values as exact rationals.  Every
  IEEE-754 double is an exact rational, and all arithmetic the sources
  perform on the paths modelled here is exact in double precision, so
  the rational model is faithful on those paths.
* Byte streams are `List Nat` (each entry < 256).  `Buffer` writes are
  modelled by little/big-endian encoders.
* Node streams, the file system and zlib are external collaborators:
  the deflate output is passed to `emitRaw` as an explicit argument
  `comp`, exactly as the source only inspects its length and bytes.
-/

/-- Encode `k` little-endian bytes of `n` (as `Buffer.writeUIntLE` does for
in-range values). -/
def leBytes : Nat → Nat → List Nat
  | 0, _ => []
  | k + 1, n => n % 256 :: leBytes k (n / 256)

/-- Decode a little-endian byte list back to a natural number. -/
def leDecode (bytes : List Nat) : Nat :=
  bytes.foldr (fun b acc => b + 256 * acc) 0

/-- Models `Buffer.writeUInt16LE`. -/
def u16le (n : Nat) : List Nat := leBytes 2 n

/-- Models `Buffer.writeUInt32LE`. -/
def u32le (n : Nat) : List Nat := leBytes 4 n

/-- Models `Buffer.writeBigUInt64LE`. -/
def u64le (n : Nat) : List Nat := leBytes 8 n

/-- Models `Buffer.writeUInt32BE` (used only by the qCompress envelope). -/
def u32be (n : Nat) : List Nat := (leBytes 4 n).reverse

/-- JavaScript `x | 0` (ToInt32). -/
def toInt32 (z : Int) : Int := (z + 2 ^ 31) % 2 ^ 32 - 2 ^ 31

/-- Models `Buffer.writeInt32LE`: two's complement little-endian bytes. -/
def i32le (z : Int) : List Nat := u32le ((z % 2 ^ 32).toNat)

/-- Models `cstr` from the writer: UTF-8 bytes of the string followed by NUL.
Strings are modelled by their byte lists. -/
def cstr (s : List Nat) : List Nat := s ++ [0]

/-- Models `cachedLit` from the writer: a `0xFF` sentinel then a C-string. -/
def cachedLit (s : List Nat) : List Nat := 0xFF :: cstr s

/-- Models `pushExt`: the extension opcode byte `(id << 4) | 0x00`. -/
def extByte (id : Nat) : Nat := (id <<< 4) ||| 0x00

/-- A JavaScript number: NaN, infinities (`true` = negative), signed
zeros (`true` = negative zero), or a nonzero finite value as an exact
rational. -/
inductive JsNum where
  | nan : JsNum
  | inf : Bool → JsNum
  | zero : Bool → JsNum
  | num : ℚ → JsNum
deriving DecidableEq, Repr

/-- Models `Object.is` on numbers: bitwise equality, NaN equal to NaN, `-0`
distinct from `+0`. -/
def jsIs : JsNum → JsNum → Bool
  | .nan, .nan => true
  | .inf a, .inf b => a == b
  | .zero a, .zero b => a == b
  | .num a, .num b => a == b
  | _, _ => false

/-- Models `Number.isFinite`. -/
def jsIsFinite : JsNum → Bool
  | .nan => false
  | .inf _ => false
  | .zero _ => true
  | .num _ => true

/-- Truncate a rational toward zero (the integer part used by
`ToUint32`). -/
def jsTrunc (q : ℚ) : Int := Int.tdiv q.num q.den

/-- JavaScript `x >>> 0` (ToUint32): NaN and infinities map to 0,
finite values truncate toward zero then wrap modulo `2^32`. -/
def jsToUint32 : JsNum → Nat
  | .nan => 0
  | .inf _ => 0
  | .zero _ => 0
  | .num q => ((jsTrunc q) % 2 ^ 32).toNat

/-- Absolute value on `ℚ` (an executable unfolding of `|q|`). -/
def ratAbs (q : ℚ) : ℚ := if q < 0 then -q else q

/-- Floor of a rational (an executable unfolding of `⌊q⌋`). -/
def ratFloor (q : ℚ) : Int := Int.fdiv q.num q.den

/-- Round a rational to the nearest integer, ties to even. -/
def rne (q : ℚ) : Int :=
  let fl := ratFloor q
  let fr := q - fl
  if fr < 1 / 2 then fl
  else if 1 / 2 < fr then fl + 1
  else if fl % 2 = 0 then fl else fl + 1

/-- Downward scan for the binary exponent: starting at `p = 2^e`, find
the first (greatest) `e` with `2^e ≤ m`. -/
def ratExp2Scan : Nat → ℚ → ℚ → Int → Int
  | 0, _, _, e => e
  | fuel + 1, m, p, e => if p ≤ m then e else ratExp2Scan fuel m (p / 2) (e - 1)

/-- Binary exponent of a positive rational: the greatest `e` with
`2^e ≤ m`, clamped to `[-152, 128]`.  Outside that window binary32
conversion saturates (to infinity above, to zero below), so the clamp
does not change any bit pattern. -/
def ratExp2 (m : ℚ) : Int := ratExp2Scan 280 m ((2 : ℚ) ^ (128 : Nat)) 128

/-- IEEE-754 binary32 bit pattern nearest to a nonzero rational
(round to nearest, ties to even); models the conversion performed by
`f32[0] = val` / `Float32Array`. -/
def f32BitsOfRat (q : ℚ) : Nat :=
  let sign : Nat := if q < 0 then 1 else 0
  let m : ℚ := ratAbs q
  let e := ratExp2 m
  if e ≥ 128 then (sign <<< 31) ||| 0x7F800000
  else if e ≥ -126 then
    let n := rne (m * (2 : ℚ) ^ (23 - e))
    if n = 2 ^ 24 then
      if e + 1 ≥ 128 then (sign <<< 31) ||| 0x7F800000
      else (sign <<< 31) ||| ((e + 1 + 127).toNat <<< 23)
    else (sign <<< 31) ||| ((e + 127).toNat <<< 23) ||| (n.toNat - 2 ^ 23)
  else
    let n := rne (m * (2 : ℚ) ^ (149 : Int))
    (sign <<< 31) ||| n.toNat

/-- The binary32 bit pattern of a JS number (the `u32[0]` view in
`f32ToF16Bits`); NaN is represented by the canonical quiet pattern. -/
def f32BitsOfJs : JsNum → Nat
  | .nan => 0x7FC00000
  | .inf s => ((if s then 1 else 0) <<< 31) ||| 0x7F800000
  | .zero s => (if s then 1 else 0) <<< 31
  | .num q => if q = 0 then 0 else f32BitsOfRat q

/-- Models `f32ToF16Bits` from `apxtlm-writer.service.ts`: convert a value to
half-precision bits via its binary32 pattern. -/
def f32ToF16Bits (val : JsNum) : Nat :=
  let x := f32BitsOfJs val
  let sign := (x >>> 31) &&& 0x1
  let exp := (x >>> 23) &&& 0xff
  let mant := x &&& 0x7fffff
  if exp = 0xff then
    (sign <<< 15) ||| (0x1f <<< 10) ||| (if mant ≠ 0 then 0x200 else 0)
  else
    -- `exp16 = exp - 127 + 15` in the source; `Int` since it can be negative
    let exp16 : Int := (exp : Int) - 127 + 15
    if exp ≤ 112 then
      if exp < 103 then sign <<< 15
      else
        let shift := 113 - exp
        let mant16 := (0x800000 ||| mant) >>> shift
        let mant16 :=
          if mant16 &&& 0x1 ≠ 0 ∧ mant &&& ((1 <<< (shift - 1)) - 1) ≠ 0
          then mant16 + 1 else mant16
        (sign <<< 15) ||| mant16
    else if exp16 ≥ 0x1f then (sign <<< 15) ||| (0x1f <<< 10)
    else
      let mant16 := mant >>> 13
      let roundBit := (mant >>> 12) &&& 1
      let mant16 :=
        if roundBit ≠ 0 ∧ (mant16 &&& 1 ≠ 0 ∨ mant &&& 0xFFF ≠ 0)
        then mant16 + 1 else mant16
      if mant16 = 0x400 then
        let exp16 := exp16 + 1
        if exp16 ≥ 0x1f then (sign <<< 15) ||| (0x1f <<< 10)
        else (sign <<< 15) ||| ((exp16.toNat &&& 0x1f) <<< 10)
      else (sign <<< 15) ||| ((exp16.toNat &&& 0x1f) <<< 10) ||| (mant16 &&& 0x3ff)

/-- Models `f16ToF32Approx` from `apxtlm-writer.service.ts`.  All double
arithmetic it performs is exact, so the rational result is the exact
JS result. -/
def f16ToF32Approx (bits : Nat) : JsNum :=
  let s : Bool := bits &&& 0x8000 ≠ 0
  let e := (bits >>> 10) &&& 0x1f
  let f := bits &&& 0x3ff
  if e = 0 then
    if f = 0 then .zero s
    else .num ((if s then -1 else 1) * (2 : ℚ) ^ (-14 : Int) * ((f : ℚ) / 1024))
  else if e = 31 then
    if f ≠ 0 then .nan else .inf s
  else .num ((if s then -1 else 1) * (2 : ℚ) ^ ((e : Int) - 15) * (1 + (f : ℚ) / 1024))

/-- Models `chooseFloatSpec`: dspec code (6 = f16, 7 = f32) and the value
bytes. -/
def chooseFloatSpec (val : JsNum) : Nat × List Nat :=
  if jsIsFinite val then
    if jsIs (f16ToF32Approx (f32ToF16Bits val)) val then (6, u16le (f32ToF16Bits val))
    else (7, u32le (f32BitsOfJs val))
  else (7, u32le (f32BitsOfJs val))

example : chooseFloatSpec (.num 1) = (6, [0x00, 0x3C]) := by with_unfolding_all decide
example : chooseFloatSpec .nan = (7, [0, 0, 192, 127]) := by with_unfolding_all decide
example : chooseFloatSpec (.num (3/2)) = (6, [0x00, 0x3E]) := by with_unfolding_all decide
example : chooseFloatSpec (.zero true) = (6, [0x00, 0x80]) := by with_unfolding_all decide
example : f32BitsOfJs (.num 1700000000) = 0x4ECAA7E2 := by with_unfolding_all decide

/-- Encoder state of `ApxTlmWriter` (`apxtlm-writer.service.ts`).
`out` is the byte stream written after the 44-byte header; the header
itself is the pure function `headerBytes` below. -/
structure ApxTlmWriter where
  declaredFields : Nat
  lastWidx : Int
  lastDown : List (Nat × JsNum)
  lastUp : List (Nat × JsNum)
  out : List Nat
deriving DecidableEq, Repr

/-- Models `Map.get`. -/
def cacheGet : List (Nat × JsNum) → Nat → Option JsNum
  | [], _ => none
  | p :: rest, k => if p.1 = k then some p.2 else cacheGet rest k

/-- Models `Map.set`: replace an existing binding, else append. -/
def cacheSet : List (Nat × JsNum) → Nat → JsNum → List (Nat × JsNum)
  | [], k, v => [(k, v)]
  | p :: rest, k, v => if p.1 = k then (k, v) :: rest else p :: cacheSet rest k v

/-- Models `writeHeaderPlaceholder`: the fixed 44-byte header, as a function of
the constructor arguments `version`, `utcOffsetSeconds` and
`startTimestampMs64`. -/
def headerBytes (version : Nat) (utcOffsetSeconds : Int) (startTimestampMs64 : Nat) : List Nat :=
  [65, 80, 88, 84, 76, 77]
    ++ List.replicate 10 0
    ++ u16le (version &&& 0xFFFF)
    ++ u16le 44
    ++ List.replicate 12 0
    ++ u64le (startTimestampMs64 % 2 ^ 64)
    ++ i32le (toInt32 utcOffsetSeconds)

/-- Models `emitField`: field declaration record; increments the registry. -/
def emitField (w : ApxTlmWriter) (name : List Nat) (info : List (List Nat)) : ApxTlmWriter :=
  { w with
    out := w.out ++ [extByte 3] ++ cstr name ++ [info.length &&& 0xFF]
            ++ (info.map cstr).flatten
    declaredFields := w.declaredFields + 1 }

/-- Models `emitEvtId`: event schema record. -/
def emitEvtId (w : ApxTlmWriter) (name : List Nat) (keys : List (List Nat)) : ApxTlmWriter :=
  { w with
    out := w.out ++ [extByte 4] ++ cstr name ++ [keys.length &&& 0xFF]
            ++ (keys.map cstr).flatten }

/-- Models `emitTs`: timestamp marker; resets the last-index cache. -/
def emitTs (w : ApxTlmWriter) (ms : Nat) : ApxTlmWriter :=
  { w with out := w.out ++ [extByte 1] ++ u32le (ms % 2 ^ 32), lastWidx := -1 }

/-- Models `writeIndexAndSpec`: opt8 single-byte framing when a value record
was already written since the last ts marker and the index delta is in
0..7, otherwise the two-byte long form.  Returns the framing bytes and
the updated `lastWidx`. -/
def writeIndexAndSpec (dspec : Nat) (fieldIndex : Nat) (lastWidx : Int) : List Nat × Int :=
  if lastWidx ≥ 0 ∧ 0 ≤ (fieldIndex : Int) - lastWidx - 1 ∧ (fieldIndex : Int) - lastWidx - 1 ≤ 7 then
    let delta := ((fieldIndex : Int) - lastWidx - 1).toNat
    ([0x10 ||| ((delta &&& 0x07) <<< 5) ||| (dspec &&& 0x0F)], (fieldIndex : Int))
  else
    ([((fieldIndex &&& 0x07) <<< 5) ||| (dspec &&& 0x0F), (fieldIndex >>> 3) &&& 0xFF],
     (fieldIndex : Int))

/-- The writing half of `emitNumber`, after the guard and the cache
check have passed. -/
def emitNumberCore (w : ApxTlmWriter) (idx : Nat) (v : JsNum) (uplink : Bool) : ApxTlmWriter :=
  let cache := cacheSet (if uplink then w.lastUp else w.lastDown) idx v
  let dirBytes : List Nat := if uplink then [extByte 2] else []
  let spec := chooseFloatSpec v
  let fr := writeIndexAndSpec spec.1 idx w.lastWidx
  { declaredFields := w.declaredFields
    lastWidx := fr.2
    lastDown := if uplink then w.lastDown else cache
    lastUp := if uplink then cache else w.lastUp
    out := w.out ++ dirBytes ++ fr.1 ++ spec.2 }

/-- Models `emitNumber`: numeric sample with index guard, per-direction
value-change suppression under `Object.is`, and f16/f32 selection. -/
def emitNumber (w : ApxTlmWriter) (fieldIndex : Int) (v : JsNum) (uplink : Bool) : ApxTlmWriter :=
  if 0 ≤ fieldIndex ∧ fieldIndex < (w.declaredFields : Int) then
    let idx := fieldIndex.toNat
    match cacheGet (if uplink then w.lastUp else w.lastDown) idx with
    | some prev => if jsIs prev v then w else emitNumberCore w idx v uplink
    | none => emitNumberCore w idx v uplink
  else w

/-- Models `emitValueF32` (legacy API): downlink `emitNumber`. -/
def emitValueF32 (w : ApxTlmWriter) (fieldIndex : Int) (v : JsNum) : ApxTlmWriter :=
  emitNumber w fieldIndex v false

/-- The caller-visible part of the `info` object patched by
`emitInfo`; other properties are serialized verbatim. -/
structure InfoArg where
  timestamp : Option Int
  utc_offset : Option Int
deriving DecidableEq, Repr

/-- The in-place patch `emitInfo` applies to a caller-supplied object
before serializing it: `utc_offset` is unconditionally overwritten with
the writer's `utcOffsetSeconds | 0`, and `timestamp`, when `null` or
absent, is set to `startTimestampMs64 >>> 0`. -/
def emitInfoPatch (utcOffsetSeconds : Int) (startTimestampMs64 : Nat) (info : InfoArg) : InfoArg :=
  let info := { info with utc_offset := some (toInt32 utcOffsetSeconds) }
  match info.timestamp with
  | none => { info with timestamp := some ((startTimestampMs64 % 2 ^ 32 : Nat) : Int) }
  | some _ => info

/-- The chunk decomposition performed by the `emitRaw` while-loop:
consecutive pieces of at most `0xFFFF` bytes. -/
def chunksOf (data : List Nat) : List (List Nat) :=
  if h : data = [] then []
  else data.take 0xFFFF :: chunksOf (data.drop 0xFFFF)
termination_by data.length
decreasing_by
  have hlen : 0 < data.length := List.length_pos.mpr h
  simp only [List.length_drop]
  omega

/-- The byte stream produced by the `emitRaw` while-loop: each chunk is
written as name literal, u16 length, chunk bytes (with no opcode of its
own). -/
def rawChunkBytes (nameLit : List Nat) (data : List Nat) : List Nat :=
  if h : data = [] then []
  else
    nameLit ++ u16le (data.take 0xFFFF).length ++ data.take 0xFFFF
      ++ rawChunkBytes nameLit (data.drop 0xFFFF)
termination_by data.length
decreasing_by
  have hlen : 0 < data.length := List.length_pos.mpr h
  simp only [List.length_drop]
  omega

/-- Models `emitRaw`: choose RAW or ZIP automatically.  `comp` is the output
of `zlib.deflateSync(data)`, supplied as an argument since zlib is an
external collaborator; the source only concatenates it and compares
lengths. -/
def emitRaw (w : ApxTlmWriter) (name : List Nat) (data : List Nat) (comp : List Nat)
    (ts : Option Nat) : ApxTlmWriter :=
  let w := match ts with | some t => emitTs w t | none => w
  let nameLit := cachedLit name
  let zipped := u32be data.length ++ comp
  if zipped.length < data.length + 2 then
    { w with out := w.out ++ [extByte 11] ++ nameLit ++ u32le zipped.length ++ zipped }
  else
    let w := { w with out := w.out ++ [extByte 10] }
    if data.length > 0xFFFF then
      { w with out := w.out ++ rawChunkBytes nameLit data }
    else
      { w with out := w.out ++ nameLit ++ u16le data.length ++ data }

example :
    emitNumber ⟨1, -1, [], [], []⟩ 0 (.num 1) false
      = ⟨1, 0, [(0, .num 1)], [], [0x06, 0x00, 0x00, 0x3C]⟩ := by
  with_unfolding_all decide

example :
    emitNumber ⟨1, -1, [(0, .num 1)], [], []⟩ 0 (.num 1) false
      = ⟨1, -1, [(0, .num 1)], [], []⟩ := by
  with_unfolding_all decide

/-- Decode `k` bytes at `off` as a little-endian unsigned integer. -/
def readLE (bytes : List Nat) (off k : Nat) : Nat := leDecode ((bytes.drop off).take k)

/-- Base timestamp resolution at the datalink root
(`datalink-repack.service.ts`, root `opentag` handler): the numeric
`time_ms`/`UTC` attribute is used via `>>> 0` when finite, else 0; an
absent attribute leaves the initial 0. -/
def dlBaseTs (t : Option JsNum) : Nat :=
  match t with
  | none => 0
  | some v => if jsIsFinite v then jsToUint32 v else 0

/-- Header of a datalink repack output: the service constructs
`new ApxTlmWriter(0x0100, utcOffset, baseTs >>> 0, outFile)`. -/
def dlHeaderBytes (utcOffset : Int) (t : Option JsNum) : List Nat :=
  headerBytes 0x0100 utcOffset (dlBaseTs t % 2 ^ 32)

/-- Header of a telemetry repack output: the service constructs
`new ApxTlmWriter(1, utcOffsetSec, baseTs, outFile)`. -/
def tlHeaderBytes (utcOffsetSec : Int) (baseTs : Nat) : List Nat :=
  headerBytes 1 utcOffsetSec baseTs

/-- Models `host` sub-object of the hard-coded datalink info block. -/
structure DlHost where
  hostname : String
  uid : String
  username : String
deriving DecidableEq, Repr

/-- Models `sw` sub-object of the hard-coded datalink info block. -/
structure DlSw where
  hash : String
  version : String
deriving DecidableEq, Repr

/-- Models `unit` sub-object of the hard-coded datalink info block. -/
structure DlUnit where
  name : String
  time : Nat
  type : String
  uid : String
deriving DecidableEq, Repr

/-- The info object the datalink service embeds. -/
structure DlInfo where
  conf : String
  host : DlHost
  sw : DlSw
  title : String
  unit : DlUnit
  timestamp : Nat
  utc_offset : ℚ
deriving DecidableEq, Repr

/-- The literal info object built in `repackDatalinkToApx_stream`
(lines 139-162): every field except the timestamps and the UTC offset
is a hard-coded constant; `new Date(baseTs).getTime()` is `baseTs`. -/
def datalinkInfo (baseTs : Nat) (utcOffset : ℚ) : DlInfo :=
  { conf := "Borey-801"
    host := { hostname := "Ovsannikovs-MacBook-Pro"
              uid := "86C97FFC9CD3544D0D7B61F984B621B48430910F"
              username := "nikolay" }
    sw := { hash := "fe7bd27c", version := "11.2.12" }
    title := "250910_1730_32396E3-BOREY"
    unit := { name := "BOREY", time := baseTs, type := "UAV"
              uid := "230047000F51323032343731" }
    timestamp := baseTs
    utc_offset := utcOffset / 60 }

/-- ASCII decimal digits of a natural number (the bytes of `${n}`). -/
def asciiDigitsAux : Nat → Nat → List Nat
  | 0, _ => []
  | fuel + 1, n => if n < 10 then [48 + n] else asciiDigitsAux fuel (n / 10) ++ [48 + n % 10]

/-- ASCII decimal digits of `n`. -/
def asciiDigits (n : Nat) : List Nat := asciiDigitsAux (n + 1) n

/-- Synthesized field names `#0..#N-1` with `N = min(hint, 2048)`
(both ingests synthesize the same names). -/
def synthNames (hint : Nat) : List (List Nat) :=
  (List.range (min hint 2048)).map (fun i => 35 :: asciiDigits i)

/-- Models `declareFieldsIfNeeded` (same logic in both ingest services):
synthesize names when none were collected, cap at 2048, then declare
every field in one burst. -/
def declareFieldsIfNeeded (w : ApxTlmWriter) (fields : List (List Nat)) (declared : Bool)
    (hint : Nat) : ApxTlmWriter × List (List Nat) × Bool :=
  if declared then (w, fields, true)
  else
    let fields := if fields.isEmpty then synthNames hint else fields
    let fields := fields.take 2048
    (fields.foldl (fun w f => emitField w f []) w, fields, true)

/-- A CSV column token: the empty string, or a string whose JS
`Number(s)` value is `v`. -/
inductive CsvToken where
  | empty : CsvToken
  | val : JsNum → CsvToken
deriving DecidableEq, Repr

/-- The per-column loop of the datalink CSV-row close handler
(`datalink-repack.service.ts` lines 226-233): non-empty tokens whose
value is finite are emitted downlink; the `any` flag records whether
any column emitted. -/
def dlLoop (w : ApxTlmWriter) (parts : List CsvToken) (lim : Nat) : ApxTlmWriter × Bool :=
  (List.range lim).foldl
    (fun acc i =>
      match parts.get? i with
      | some (CsvToken.val v) => if jsIsFinite v then (emitNumber acc.1 (i : Int) v false, true) else acc
      | _ => acc)
    (w, false)

/-- The datalink CSV-row close handler (`closetag` for `<S>`/`<D>`,
lines 215-237): declare fields, emit the ts marker, run the column
loop, and fall back to a NaN sample on field 0 when no column emitted. -/
def dlCsvClose (w : ApxTlmWriter) (fields : List (List Nat)) (declared : Bool)
    (tsAttr : Option JsNum) (parts : List CsvToken) :
    ApxTlmWriter × List (List Nat) × Bool :=
  let d := declareFieldsIfNeeded w fields declared parts.length
  let ts : JsNum := match tsAttr with | some t => t | none => .num 0
  let w2 := emitTs d.1 (if jsIsFinite ts then jsToUint32 ts else 0)
  let flen := if d.2.1.length = 0 then 2048 else d.2.1.length
  let lim := min parts.length flen
  let r := dlLoop w2 parts lim
  let w3 := if r.2 = false ∧ 0 < flen then emitValueF32 r.1 0 .nan else r.1
  (w3, d.2.1, d.2.2)

/-- The per-column loop of the telemetry `<D>` close handler
(`telemetry-repack.service.ts` lines 467-472): empty tokens and
non-finite tokens are skipped; there is no fallback sample. -/
def tlLoop (w : ApxTlmWriter) (parts : List CsvToken) (lim : Nat) : ApxTlmWriter :=
  (List.range lim).foldl
    (fun w i =>
      match parts.get? i with
      | some (CsvToken.val v) => if jsIsFinite v then emitNumber w (i : Int) v false else w
      | _ => w)
    w

/-- Models `maybeEmitTs` from the telemetry service: suppress a marker equal
to the previous one. -/
def maybeEmitTs (w : ApxTlmWriter) (lastTs : Int) (t : Nat) : ApxTlmWriter × Int :=
  let ts : Int := ((t % 2 ^ 32 : Nat) : Int)
  if lastTs ≠ ts then (emitTs w (t % 2 ^ 32), ts) else (w, lastTs)

/-- The telemetry `<D>` close handler (lines 458-473). -/
def tlDClose (w : ApxTlmWriter) (fields : List (List Nat)) (declared : Bool)
    (lastTs : Int) (currentDTs : Nat) (parts : List CsvToken) :
    ApxTlmWriter × List (List Nat) × Bool × Int :=
  let d := declareFieldsIfNeeded w fields declared parts.length
  let flen := if d.2.1.length = 0 then 2048 else d.2.1.length
  let lim := min parts.length flen
  let m := maybeEmitTs d.1 lastTs currentDTs
  (tlLoop m.1 parts lim, d.2.1, d.2.2, m.2)

example : asciiDigits 0 = [48] := by with_unfolding_all decide
example : asciiDigits 2047 = [50, 48, 52, 55] := by with_unfolding_all decide
example :
    (dlCsvClose ⟨0, -1, [], [], []⟩ [] false none [.val .nan]).1.out
      = [0x30, 35, 48, 0, 0, 0x10, 0, 0, 0, 0, 0x07, 0, 0, 0, 192, 127] := by
  with_unfolding_all decide

lemma length_leBytes (k n : Nat) : (leBytes k n).length = k := by
  induction k generalizing n with
  | zero => rfl
  | succ k ih => simp [leBytes, ih]

lemma leDecode_leBytes (k n : Nat) : leDecode (leBytes k n) = n % 256 ^ k := by
  induction k generalizing n with
  | zero => simp [leBytes, leDecode, Nat.mod_one]
  | succ k ih =>
    have h256 : (256 : Nat) ^ (k + 1) = 256 * 256 ^ k := by ring
    simp only [leBytes, leDecode, List.foldr_cons]
    have ihd := ih (n / 256)
    simp only [leDecode] at ihd
    rw [ihd, h256, Nat.mod_mul]

lemma writeIndexAndSpec_length_pos (d i : Nat) (l : Int) :
    0 < ((writeIndexAndSpec d i l).1).length := by
  unfold writeIndexAndSpec
  split <;> simp

lemma chooseFloatSpec_snd_ne_nil (v : JsNum) : (chooseFloatSpec v).2 ≠ [] := by
  unfold chooseFloatSpec
  split
  · split <;> simp [u16le, u32le, leBytes]
  · simp [u32le, leBytes]

lemma chooseFloatSpec_fst (v : JsNum) :
    (chooseFloatSpec v).1 = 6 ∨ (chooseFloatSpec v).1 = 7 := by
  unfold chooseFloatSpec
  split
  · split
    · exact Or.inl rfl
    · exact Or.inr rfl
  · exact Or.inr rfl

/-- C7: `emitNumber` with a field index that is negative or at/beyond
the number of declared fields writes no bytes and leaves the writer
state unchanged; consequently a call that does write bytes always
references an index below the count of preceding field declarations. -/
theorem emitNumber_index_guard :
    (∀ (w : ApxTlmWriter) (i : Int) (v : JsNum) (up : Bool),
        i < 0 ∨ (w.declaredFields : Int) ≤ i → emitNumber w i v up = w)
    ∧ (∀ (w : ApxTlmWriter) (i : Int) (v : JsNum) (up : Bool),
        (emitNumber w i v up).out ≠ w.out → 0 ≤ i ∧ i < (w.declaredFields : Int)) := by
  constructor
  · intro w i v up h
    have hng : ¬(0 ≤ i ∧ i < (w.declaredFields : Int)) := by omega
    simp [emitNumber, hng]
  · intro w i v up hout
    by_contra hc
    have : emitNumber w i v up = w := by simp [emitNumber, hc]
    rw [this] at hout
    exact hout rfl

/-- Witness for C7 at a concrete writer: index 5 with a single declared
field is rejected unchanged. -/
theorem emitNumber_index_guard_witness :
    emitNumber ⟨1, -1, [], [], []⟩ 5 (.num 2) false = ⟨1, -1, [], [], []⟩ :=
  emitNumber_index_guard.1 ⟨1, -1, [], [], []⟩ 5 (.num 2) false (Or.inr (by decide))

/-- C2: `emitNumber` suppresses a sample whose value is `Object.is`-
equal (NaN equal to NaN, `-0` distinct from `+0`) to the cached value
for the same field index in the same direction, writing no bytes and
changing no state; the uplink and downlink caches are disjoint, so a
cached downlink value never suppresses the same value uplink on the
same index, and vice versa. -/
theorem emitNumber_value_cache :
    (∀ (w : ApxTlmWriter) (i : Int) (v prev : JsNum) (up : Bool),
        cacheGet (if up then w.lastUp else w.lastDown) i.toNat = some prev →
        jsIs prev v = true → emitNumber w i v up = w)
    ∧ (∀ (w : ApxTlmWriter) (i : Int) (v : JsNum),
        0 ≤ i → i < (w.declaredFields : Int) →
        cacheGet w.lastDown i.toNat = some v →
        cacheGet w.lastUp i.toNat = none →
        w.out.length < (emitNumber w i v true).out.length)
    ∧ (∀ (w : ApxTlmWriter) (i : Int) (v : JsNum),
        0 ≤ i → i < (w.declaredFields : Int) →
        cacheGet w.lastUp i.toNat = some v →
        cacheGet w.lastDown i.toNat = none →
        w.out.length < (emitNumber w i v false).out.length)
    ∧ jsIs .nan .nan = true ∧ jsIs (.zero true) (.zero false) = false := by
  refine ⟨?_, ?_, ?_, rfl, rfl⟩
  · intro w i v prev up hprev hjs
    by_cases hg : 0 ≤ i ∧ i < (w.declaredFields : Int)
    · simp [emitNumber, hg, hprev, hjs]
    · simp [emitNumber, hg]
  · intro w i v h0 hlt hdown hup
    have hg : 0 ≤ i ∧ i < (w.declaredFields : Int) := ⟨h0, hlt⟩
    have hpos := List.length_pos.mpr (chooseFloatSpec_snd_ne_nil v)
    simp [emitNumber, hg, hup, emitNumberCore, List.length_append]
    all_goals omega
  · intro w i v h0 hlt hupc hdownc
    have hg : 0 ≤ i ∧ i < (w.declaredFields : Int) := ⟨h0, hlt⟩
    have hpos := List.length_pos.mpr (chooseFloatSpec_snd_ne_nil v)
    simp [emitNumber, hg, hdownc, emitNumberCore, List.length_append]
    all_goals omega

/-- Witness for C2: a cached downlink NaN suppresses a NaN re-emit
downlink but not uplink. -/
theorem emitNumber_value_cache_witness :
    emitNumber ⟨1, -1, [(0, JsNum.nan)], [], []⟩ 0 .nan false
        = ⟨1, -1, [(0, JsNum.nan)], [], []⟩
      ∧ ([] : List Nat).length
          < (emitNumber ⟨1, -1, [(0, JsNum.nan)], [], []⟩ 0 .nan true).out.length :=
  ⟨emitNumber_value_cache.1 ⟨1, -1, [(0, JsNum.nan)], [], []⟩ 0 .nan .nan false
      (by with_unfolding_all decide) (by with_unfolding_all decide),
   emitNumber_value_cache.2.1 ⟨1, -1, [(0, JsNum.nan)], [], []⟩ 0 .nan
      (by decide) (by decide) (by with_unfolding_all decide) (by with_unfolding_all decide)⟩

/-- C3: a value record is framed with the single opt8 byte
`0x10 | ((delta & 7) << 5) | (dspec & 0xF)` exactly when a value record
has been written since the last ts marker (`lastWidx ≥ 0`) and
`delta = index - lastWidx - 1` is in 0..7; otherwise the two-byte long
form is used; a ts record resets `lastWidx` to -1, so the first value
record after any ts record is framed with the long form; a written
sample leaves `lastWidx ≥ 0`. -/
theorem opt8_framing :
    (∀ (d i : Nat) (last : Int),
        last ≥ 0 → 0 ≤ (i : Int) - last - 1 → (i : Int) - last - 1 ≤ 7 →
        (writeIndexAndSpec d i last).1
          = [0x10 ||| ((((i : Int) - last - 1).toNat &&& 0x07) <<< 5) ||| (d &&& 0x0F)])
    ∧ (∀ (d i : Nat) (last : Int),
        ¬(last ≥ 0 ∧ 0 ≤ (i : Int) - last - 1 ∧ (i : Int) - last - 1 ≤ 7) →
        ((writeIndexAndSpec d i last).1).length = 2)
    ∧ (∀ (w : ApxTlmWriter) (ms : Nat), (emitTs w ms).lastWidx = -1)
    ∧ (∀ (w : ApxTlmWriter) (ms : Nat) (d i : Nat),
        ((writeIndexAndSpec d i (emitTs w ms).lastWidx).1).length = 2)
    ∧ (∀ (w : ApxTlmWriter) (i : Int) (v : JsNum) (up : Bool),
        (emitNumber w i v up).out ≠ w.out → 0 ≤ (emitNumber w i v up).lastWidx) := by
  refine ⟨?_, ?_, ?_, ?_, ?_⟩
  · intro d i last h1 h2 h3
    rw [writeIndexAndSpec, if_pos ⟨h1, h2, h3⟩]
  · intro d i last h
    rw [writeIndexAndSpec, if_neg h]
    simp
  · intro w ms
    simp [emitTs]
  · intro w ms d i
    have hng : ¬((emitTs w ms).lastWidx ≥ 0
        ∧ 0 ≤ (i : Int) - (emitTs w ms).lastWidx - 1
        ∧ (i : Int) - (emitTs w ms).lastWidx - 1 ≤ 7) := by
      simp [emitTs]
    rw [writeIndexAndSpec, if_neg hng]
    simp
  · intro w i v up hout
    by_cases hg : 0 ≤ i ∧ i < (w.declaredFields : Int)
    · unfold emitNumber
      rw [if_pos hg]
      unfold emitNumber at hout
      rw [if_pos hg] at hout
      cases hc : cacheGet (if up then w.lastUp else w.lastDown) i.toNat with
      | none =>
        simp only [hc, emitNumberCore, writeIndexAndSpec]
        split <;> simp
      | some prev =>
        simp only [hc] at hout ⊢
        by_cases hjs : jsIs prev v = true
        · simp [hjs] at hout
        · simp only [hjs, if_false, Bool.false_eq_true, emitNumberCore, writeIndexAndSpec]
          split <;> simp
    · have : emitNumber w i v up = w := by simp [emitNumber, hg]
      rw [this] at hout
      exact absurd rfl hout

/-- Witness for C3: after a value record at index 4, a record at index
5 (delta 0) with dspec 7 is framed as the single byte 0x17; after a ts
record the framing is two bytes. -/
theorem opt8_framing_witness :
    (writeIndexAndSpec 7 5 4).1 = [0x17]
      ∧ ((writeIndexAndSpec 7 5 (emitTs ⟨1, 4, [], [], []⟩ 100).lastWidx).1).length = 2 :=
  ⟨opt8_framing.1 7 5 4 (by decide) (by decide) (by decide),
   opt8_framing.2.2.2.1 ⟨1, 4, [], [], []⟩ 100 7 5⟩

/-- C4 counterexample: NaN round-trips through
`f32ToF16Bits`/`f16ToF32Approx` under `Object.is` (NaN is equal to
NaN), yet the encoder selects f32 for it, so "f16 iff the round-trip
equals the value" fails at `v = NaN`. -/
theorem chooseFloatSpec_roundtrip_counterexample :
    ¬((chooseFloatSpec .nan).1 = 6
        ↔ jsIs (f16ToF32Approx (f32ToF16Bits .nan)) .nan = true) := by
  with_unfolding_all decide

/-- C4 (amended): the encoder chooses f16 iff the value is finite and
the f16 round-trip is `Object.is`-equal to it; every value not encoded
as f16 is encoded as f32. -/
theorem chooseFloatSpec_f16_iff :
    ∀ v : JsNum,
      ((chooseFloatSpec v).1 = 6
        ↔ (jsIsFinite v = true ∧ jsIs (f16ToF32Approx (f32ToF16Bits v)) v = true))
      ∧ ((chooseFloatSpec v).1 ≠ 6 → (chooseFloatSpec v).1 = 7) := by
  intro v
  constructor
  · unfold chooseFloatSpec
    by_cases hf : jsIsFinite v = true
    · by_cases hr : jsIs (f16ToF32Approx (f32ToF16Bits v)) v = true
      · simp [hf, hr]
      · simp [hf, hr]
    · simp [hf]
  · intro h
    rcases chooseFloatSpec_fst v with h6 | h7
    · exact absurd h6 h
    · exact h7

/-- C8 counterexample: a caller-supplied `utc_offset` of 7200 is
overwritten with the writer's value (0 here), so the embedded
`utc_offset` is not the caller's value. -/
theorem emitInfo_utc_override_counterexample :
    (emitInfoPatch 0 0 { timestamp := some 5, utc_offset := some 7200 }).utc_offset
        = some 0
      ∧ (some (0 : Int) ≠ some (7200 : Int))
      ∧ (emitInfoPatch 0 1700000000000 { timestamp := none, utc_offset := none }).timestamp
        = some 3487918080
      ∧ ((3487918080 : Int) ≠ 1700000000000) := by
  refine ⟨rfl, by decide, rfl, by decide⟩

/-- C8 (amended): `emitInfo` patches a caller-supplied object by
always overwriting `utc_offset` with the writer's
`utcOffsetSeconds | 0` (a caller value is not kept), and by setting
`timestamp` to `startTimestampMs64 >>> 0` exactly when the caller's
`timestamp` is absent or null, keeping the caller's value otherwise. -/
theorem emitInfoPatch_fields :
    ∀ (utc : Int) (start : Nat) (info : InfoArg),
      (emitInfoPatch utc start info).utc_offset = some (toInt32 utc)
      ∧ (emitInfoPatch utc start info).timestamp
          = (match info.timestamp with
             | some t => some t
             | none => some ((start % 2 ^ 32 : Nat) : Int)) := by
  intro utc start info
  unfold emitInfoPatch
  cases h : info.timestamp <;> simp [h]

/-- C10: the info object the datalink ingest embeds is the hard-coded
Borey metadata block — conf "Borey-801", host "Ovsannikovs-MacBook-Pro",
sw version "11.2.12", title "250910_1730_32396E3-BOREY", unit "BOREY"
with a fixed uid — independent of the input file's path and content
(it is a function of the resolved base timestamp and the utcOffset
option alone); only the timestamp-derived fields vary. -/
theorem datalink_info_hardcoded :
    ∀ (b : Nat) (u : ℚ),
      (datalinkInfo b u).conf = "Borey-801"
      ∧ (datalinkInfo b u).host
          = { hostname := "Ovsannikovs-MacBook-Pro"
              uid := "86C97FFC9CD3544D0D7B61F984B621B48430910F"
              username := "nikolay" }
      ∧ (datalinkInfo b u).sw = { hash := "fe7bd27c", version := "11.2.12" }
      ∧ (datalinkInfo b u).title = "250910_1730_32396E3-BOREY"
      ∧ (datalinkInfo b u).unit.name = "BOREY"
      ∧ (datalinkInfo b u).unit.type = "UAV"
      ∧ (datalinkInfo b u).unit.uid = "230047000F51323032343731"
      ∧ (datalinkInfo b u).timestamp = b
      ∧ (datalinkInfo b u).unit.time = b := by
  intro b u
  exact ⟨rfl, rfl, rfl, rfl, rfl, rfl, rfl, rfl, rfl⟩

lemma readLE_at {pre : List Nat} {off : Nat} (mid rest : List Nat) (k : Nat)
    (hpre : pre.length = off) (hmid : mid.length = k) :
    readLE (pre ++ (mid ++ rest)) off k = leDecode mid := by
  unfold readLE
  rw [List.drop_left' hpre, List.take_left' hmid]

lemma readLE_last {pre : List Nat} {off : Nat} (mid : List Nat) (k : Nat)
    (hpre : pre.length = off) (hmid : mid.length = k) :
    readLE (pre ++ mid) off k = leDecode mid := by
  unfold readLE
  rw [List.drop_left' hpre, ← hmid, List.take_length]

lemma toNat_emod_lt (z : Int) : ((z % 2 ^ 32 : Int)).toNat < 2 ^ 32 := by
  have h2 : z % 2 ^ 32 < 2 ^ 32 := Int.emod_lt_of_pos z (by norm_num)
  omega

lemma headerBytes_version_field (v : Nat) (u : Int) (s : Nat) :
    readLE (headerBytes v u s) 16 2 = v &&& 0xFFFF := by
  have hgrp : headerBytes v u s
      = ([65, 80, 88, 84, 76, 77] ++ List.replicate 10 0)
        ++ (leBytes 2 (v &&& 0xFFFF)
          ++ (leBytes 2 44 ++ (List.replicate 12 0
            ++ (leBytes 8 (s % 2 ^ 64)
              ++ leBytes 4 (((toInt32 u) % 2 ^ 32).toNat))))) := by
    simp [headerBytes, u16le, u64le, u32le, i32le, List.append_assoc]
  rw [hgrp, readLE_at _ _ 2 (by simp) (length_leBytes _ _), leDecode_leBytes]
  have : v &&& 0xFFFF ≤ 0xFFFF := Nat.and_le_right
  omega

lemma headerBytes_start_field (v : Nat) (u : Int) (s : Nat) :
    readLE (headerBytes v u s) 32 8 = s % 2 ^ 64 := by
  have hgrp : headerBytes v u s
      = ([65, 80, 88, 84, 76, 77] ++ List.replicate 10 0
          ++ leBytes 2 (v &&& 0xFFFF) ++ leBytes 2 44
          ++ List.replicate 12 0)
        ++ (leBytes 8 (s % 2 ^ 64)
          ++ leBytes 4 (((toInt32 u) % 2 ^ 32).toNat)) := by
    simp [headerBytes, u16le, u64le, u32le, i32le, List.append_assoc]
  rw [hgrp, readLE_at _ _ 8 (by simp [length_leBytes]) (length_leBytes _ _),
    leDecode_leBytes]
  have h64 : (256 : Nat) ^ 8 = 2 ^ 64 := by norm_num
  rw [h64, Nat.mod_mod_of_dvd _ (dvd_refl _)]

/-- C6 counterexample: a datalink output's header carries the
little-endian u16 value 256 (`0x0100`) at offset 16, not 1, because the
datalink service constructs the writer with version `0x0100`. -/
theorem dl_header_version_counterexample :
    readLE (dlHeaderBytes 0 none) 16 2 = 256 ∧ (256 : Nat) ≠ 1 := by
  with_unfolding_all decide

/-- C6 (amended): every output begins with the 44-byte header — ASCII
`APXTLM` at 0, the LE u16 version at 16 (`version & 0xFFFF`: 1 for
telemetry outputs but 256 = `0x0100` for datalink outputs), LE u16
payload offset 44 at 18, the LE u64 start timestamp at 32, the LE i32
UTC offset (seconds) at 40, and zero padding elsewhere. -/
theorem header_layout :
    ∀ (version : Nat) (utc : Int) (start : Nat) (t : Option JsNum),
      (headerBytes version utc start).length = 44
      ∧ (headerBytes version utc start).take 6 = [65, 80, 88, 84, 76, 77]
      ∧ ((headerBytes version utc start).drop 6).take 10 = List.replicate 10 0
      ∧ readLE (headerBytes version utc start) 16 2 = version &&& 0xFFFF
      ∧ readLE (headerBytes version utc start) 18 2 = 44
      ∧ ((headerBytes version utc start).drop 20).take 12 = List.replicate 12 0
      ∧ readLE (headerBytes version utc start) 32 8 = start % 2 ^ 64
      ∧ readLE (headerBytes version utc start) 40 4 = ((toInt32 utc) % 2 ^ 32).toNat
      ∧ readLE (tlHeaderBytes utc start) 16 2 = 1
      ∧ readLE (dlHeaderBytes utc t) 16 2 = 256 := by
  have hver := headerBytes_version_field
  intro version utc start t
  refine ⟨?_, ?_, ?_, hver version utc start, ?_, ?_, ?_, ?_, ?_, ?_⟩
  · simp [headerBytes, u16le, u64le, u32le, i32le, length_leBytes]
  · have hgrp : headerBytes version utc start
        = [65, 80, 88, 84, 76, 77]
          ++ (List.replicate 10 0 ++ (u16le (version &&& 0xFFFF) ++ (u16le 44
            ++ (List.replicate 12 0 ++ (u64le (start % 2 ^ 64)
              ++ i32le (toInt32 utc)))))) := by
      simp [headerBytes, List.append_assoc]
    rw [hgrp, List.take_left' (by simp)]
  · have hgrp : headerBytes version utc start
        = [65, 80, 88, 84, 76, 77]
          ++ (List.replicate 10 0 ++ (u16le (version &&& 0xFFFF) ++ (u16le 44
            ++ (List.replicate 12 0 ++ (u64le (start % 2 ^ 64)
              ++ i32le (toInt32 utc)))))) := by
      simp [headerBytes, List.append_assoc]
    rw [hgrp, List.drop_left' (by simp), List.take_left' (by simp)]
  · have hgrp : headerBytes version utc start
        = ([65, 80, 88, 84, 76, 77] ++ List.replicate 10 0
            ++ leBytes 2 (version &&& 0xFFFF))
          ++ (leBytes 2 44 ++ (List.replicate 12 0
            ++ (leBytes 8 (start % 2 ^ 64)
              ++ leBytes 4 (((toInt32 utc) % 2 ^ 32).toNat)))) := by
      simp [headerBytes, u16le, u64le, u32le, i32le, List.append_assoc]
    rw [hgrp, readLE_at _ _ 2 (by simp [length_leBytes]) (length_leBytes _ _),
      leDecode_leBytes]
    norm_num
  · have hgrp : headerBytes version utc start
        = ([65, 80, 88, 84, 76, 77] ++ List.replicate 10 0
            ++ leBytes 2 (version &&& 0xFFFF) ++ leBytes 2 44)
          ++ (List.replicate 12 0 ++ (leBytes 8 (start % 2 ^ 64)
              ++ leBytes 4 (((toInt32 utc) % 2 ^ 32).toNat))) := by
      simp [headerBytes, u16le, u64le, u32le, i32le, List.append_assoc]
    rw [hgrp, List.drop_left' (by simp [length_leBytes]), List.take_left' (by simp)]
  · exact headerBytes_start_field version utc start
  · have hgrp : headerBytes version utc start
        = ([65, 80, 88, 84, 76, 77] ++ List.replicate 10 0
            ++ leBytes 2 (version &&& 0xFFFF) ++ leBytes 2 44
            ++ List.replicate 12 0 ++ leBytes 8 (start % 2 ^ 64))
          ++ leBytes 4 (((toInt32 utc) % 2 ^ 32).toNat) := by
      simp [headerBytes, u16le, u64le, u32le, i32le, List.append_assoc]
    rw [hgrp, readLE_last _ 4 (by simp [length_leBytes]) (length_leBytes _ _),
      leDecode_leBytes]
    have h32 : (256 : Nat) ^ 4 = 2 ^ 32 := by norm_num
    rw [h32, Nat.mod_eq_of_lt (toNat_emod_lt _)]
  · rw [tlHeaderBytes, hver]
    decide
  · rw [dlHeaderBytes, hver]
    decide

lemma jsToUint32_lt (v : JsNum) : jsToUint32 v < 2 ^ 32 := by
  cases v with
  | nan => decide
  | inf s => cases s <;> decide
  | zero s => cases s <;> decide
  | num q =>
    simp only [jsToUint32]
    exact toNat_emod_lt _

/-- C1 counterexample: a datalink root with `time_ms="1700000000"`
yields header start-timestamp 1700000000 — the value is used as-is via
`>>> 0` — not 1700000000000 as the claim requires. -/
theorem dl_seconds_timestamp_counterexample :
    readLE (dlHeaderBytes 0 (some (.num 1700000000))) 32 8 = 1700000000
      ∧ (1700000000 : Nat) ≠ 1700000000 * 1000 := by
  constructor
  · with_unfolding_all decide
  · decide

/-- C1 (amended): the datalink ingest resolves the root's numeric
`time_ms`/`UTC` attribute with `baseTs = ToUint32(v)` — no seconds→ms
scaling and no file-mtime substitution — and the header start
timestamp equals that value; a missing attribute or a non-finite value
yields 0. -/
theorem dl_header_start_timestamp :
    ∀ (utc : Int) (v : ℚ) (t : JsNum),
      readLE (dlHeaderBytes utc (some (.num v))) 32 8 = jsToUint32 (.num v)
      ∧ dlBaseTs (some (.num v)) = jsToUint32 (.num v)
      ∧ dlBaseTs none = 0
      ∧ (jsIsFinite t = false → dlBaseTs (some t) = 0) := by
  intro utc v t
  have hb : dlBaseTs (some (.num v)) = jsToUint32 (.num v) := by
    simp [dlBaseTs, jsIsFinite]
  refine ⟨?_, hb, rfl, ?_⟩
  · rw [dlHeaderBytes, headerBytes_start_field, hb]
    have h1 : jsToUint32 (.num v) < 2 ^ 32 := jsToUint32_lt _
    have h2 : jsToUint32 (.num v) % 2 ^ 32 = jsToUint32 (.num v) := Nat.mod_eq_of_lt h1
    rw [h2, Nat.mod_eq_of_lt (by omega)]
  · intro hf
    simp [dlBaseTs, hf]

/-- Witness for C1's amended theorem at the concrete seconds-valued
attribute from the spec's scenario. -/
theorem dl_header_start_timestamp_witness :
    readLE (dlHeaderBytes 0 (some (.num 1700000000))) 32 8 = jsToUint32 (.num 1700000000)
      ∧ dlBaseTs (some .nan) = 0 :=
  ⟨(dl_header_start_timestamp 0 1700000000 .nan).1,
   (dl_header_start_timestamp 0 1700000000 .nan).2.2.2 (by decide)⟩

lemma dlLoop_succ (w : ApxTlmWriter) (parts : List CsvToken) (lim : Nat) :
    dlLoop w parts (lim + 1)
      = (match parts.get? lim with
         | some (CsvToken.val v) =>
            if jsIsFinite v then ((emitNumber (dlLoop w parts lim).1 (lim : Int) v false, true) : ApxTlmWriter × Bool)
            else dlLoop w parts lim
         | _ => dlLoop w parts lim) := by
  unfold dlLoop
  rw [List.range_succ, List.foldl_append]
  rfl

lemma tlLoop_succ (w : ApxTlmWriter) (parts : List CsvToken) (lim : Nat) :
    tlLoop w parts (lim + 1)
      = (match parts.get? lim with
         | some (CsvToken.val v) =>
            if jsIsFinite v then emitNumber (tlLoop w parts lim) (lim : Int) v false
            else tlLoop w parts lim
         | _ => tlLoop w parts lim) := by
  unfold tlLoop
  rw [List.range_succ, List.foldl_append]
  rfl

lemma get?_set_empty_self {parts : List CsvToken} {i : Nat} {tk : CsvToken}
    (hi : parts.get? i = some tk) :
    (parts.set i CsvToken.empty).get? i = some CsvToken.empty := by
  rw [List.get?_eq_getElem?] at hi ⊢
  have hlen : i < parts.length := (List.getElem?_eq_some_iff.mp hi).1
  rw [List.getElem?_set_self (by simpa using hlen)]

lemma get?_set_empty_ne {parts : List CsvToken} {i j : Nat} (h : i ≠ j) :
    (parts.set i CsvToken.empty).get? j = parts.get? j := by
  rw [List.get?_eq_getElem?, List.get?_eq_getElem?]
  exact List.getElem?_set_ne h

lemma dlLoop_skip (w : ApxTlmWriter) (parts : List CsvToken) (lim i : Nat) (v : JsNum)
    (hi : parts.get? i = some (.val v)) (hv : jsIsFinite v = false) :
    dlLoop w (parts.set i .empty) lim = dlLoop w parts lim := by
  induction lim with
  | zero => rfl
  | succ lim ih =>
    rw [dlLoop_succ, dlLoop_succ, ih]
    by_cases hli : lim = i
    · subst hli
      rw [hi, get?_set_empty_self hi]
      simp [hv]
    · rw [get?_set_empty_ne (by omega)]

lemma tlLoop_skip (w : ApxTlmWriter) (parts : List CsvToken) (lim i : Nat) (v : JsNum)
    (hi : parts.get? i = some (.val v)) (hv : jsIsFinite v = false) :
    tlLoop w (parts.set i .empty) lim = tlLoop w parts lim := by
  induction lim with
  | zero => rfl
  | succ lim ih =>
    rw [tlLoop_succ, tlLoop_succ, ih]
    by_cases hli : lim = i
    · subst hli
      rw [hi, get?_set_empty_self hi]
      simp [hv]
    · rw [get?_set_empty_ne (by omega)]

lemma dlLoop_any_false_iff (w : ApxTlmWriter) (parts : List CsvToken) (lim : Nat) :
    (dlLoop w parts lim).2 = false
      ↔ ∀ i < lim, ∀ v, parts.get? i = some (CsvToken.val v) → jsIsFinite v = false := by
  induction lim with
  | zero => simp [dlLoop]
  | succ lim ih =>
    rw [dlLoop_succ]
    constructor
    · intro h i hilt v hv
      rcases Nat.lt_succ_iff_lt_or_eq.mp hilt with hlt | heq
      · cases hg : parts.get? lim with
        | none => rw [hg] at h; exact (ih.mp h) i hlt v hv
        | some tk =>
          cases tk with
          | empty => rw [hg] at h; exact (ih.mp h) i hlt v hv
          | val u =>
            rw [hg] at h
            by_cases hf : jsIsFinite u = true
            · simp [hf] at h
            · simp [hf] at h
              exact (ih.mp h) i hlt v hv
      · subst heq
        cases hg : parts.get? i with
        | none => rw [hg] at hv; cases hv
        | some tk =>
          rw [hg] at hv h
          cases hv
          by_cases hf : jsIsFinite v = true
          · simp [hf] at h
          · simpa using hf
    · intro h
      have hlim : ∀ v, parts.get? lim = some (CsvToken.val v) → jsIsFinite v = false :=
        fun v hv => h lim (Nat.lt_succ_self lim) v hv
      have hrest : (dlLoop w parts lim).2 = false :=
        ih.mpr (fun i hilt v hv => h i (Nat.lt_succ_of_lt hilt) v hv)
      cases hg : parts.get? lim with
      | none => exact hrest
      | some tk =>
        cases tk with
        | empty => exact hrest
        | val u =>
          have hf := hlim u hg
          simp [hf]
          exact hrest

/-- C9 counterexample: a datalink CSV row whose only column token does
not parse as a finite number still produces a sample record for that
column's field index — the row emits the field declaration, the ts
record and then a NaN f32 sample for field 0 (bytes `07 00` framing
plus the NaN f32), instead of stopping after the ts record as the
claim requires. -/
theorem dl_bad_token_nan_fallback_counterexample :
    (dlCsvClose ⟨0, -1, [], [], []⟩ [] false none [.val .nan]).1.out
        = [0x30, 35, 48, 0, 0, 0x10, 0, 0, 0, 0, 0x07, 0, 0, 0, 192, 127]
      ∧ (dlCsvClose ⟨0, -1, [], [], []⟩ [] false none [.val .nan]).1.out
        ≠ [0x30, 35, 48, 0, 0, 0x10, 0, 0, 0, 0] := by
  constructor
  · with_unfolding_all decide
  · with_unfolding_all decide

/-- C9 (amended): in both ingests' per-column loops, a column token
that does not parse as a finite number is skipped — the loop result is
the same as if that column were empty, so no sample is emitted for its
field index and the other columns are unaffected; in the datalink
ingest additionally a row in which no column in range yields a finite
number (characterized by the `any` flag staying false) triggers a
fallback NaN sample for field index 0. -/
theorem csv_bad_token_skip :
    (∀ (w : ApxTlmWriter) (parts : List CsvToken) (lim i : Nat) (v : JsNum),
        parts.get? i = some (CsvToken.val v) → jsIsFinite v = false →
        tlLoop w (parts.set i .empty) lim = tlLoop w parts lim)
    ∧ (∀ (w : ApxTlmWriter) (parts : List CsvToken) (lim i : Nat) (v : JsNum),
        parts.get? i = some (CsvToken.val v) → jsIsFinite v = false →
        dlLoop w (parts.set i .empty) lim = dlLoop w parts lim)
    ∧ (∀ (w : ApxTlmWriter) (parts : List CsvToken) (lim : Nat),
        (dlLoop w parts lim).2 = false
          ↔ ∀ i < lim, ∀ v, parts.get? i = some (CsvToken.val v) → jsIsFinite v = false) := by
  exact ⟨fun w parts lim i v hi hv => tlLoop_skip w parts lim i v hi hv,
         fun w parts lim i v hi hv => dlLoop_skip w parts lim i v hi hv,
         fun w parts lim => dlLoop_any_false_iff w parts lim⟩

/-- Witness for C9's amended theorem: replacing the bad middle token
of a three-column row with an empty token leaves both loops' output
unchanged. -/
theorem csv_bad_token_skip_witness :
    tlLoop ⟨3, -1, [], [], []⟩ ([.val (.num 1), .val .nan, .val (.num 2)].set 1 .empty) 3
        = tlLoop ⟨3, -1, [], [], []⟩ [.val (.num 1), .val .nan, .val (.num 2)] 3
      ∧ dlLoop ⟨3, -1, [], [], []⟩ ([.val (.num 1), .val .nan, .val (.num 2)].set 1 .empty) 3
        = dlLoop ⟨3, -1, [], [], []⟩ [.val (.num 1), .val .nan, .val (.num 2)] 3 :=
  ⟨csv_bad_token_skip.1 ⟨3, -1, [], [], []⟩ [.val (.num 1), .val .nan, .val (.num 2)] 3 1 .nan
      (by decide) (by decide),
   csv_bad_token_skip.2.1 ⟨3, -1, [], [], []⟩ [.val (.num 1), .val .nan, .val (.num 2)] 3 1 .nan
      (by decide) (by decide)⟩

lemma chunksOf_flatten_aux :
    ∀ (n : Nat) (data : List Nat), data.length ≤ n → (chunksOf data).flatten = data := by
  intro n
  induction n with
  | zero =>
    intro data h
    have hnil : data = [] := List.eq_nil_of_length_eq_zero (by omega)
    subst hnil
    rw [chunksOf]
    simp
  | succ n ih =>
    intro data h
    rw [chunksOf]
    by_cases hnil : data = []
    · simp [hnil]
    · rw [dif_neg hnil]
      have hpos : 0 < data.length := List.length_pos.mpr hnil
      rw [List.flatten_cons, ih (data.drop 0xFFFF) (by simp [List.length_drop]; omega)]
      exact List.take_append_drop _ _

lemma chunksOf_flatten (data : List Nat) : (chunksOf data).flatten = data :=
  chunksOf_flatten_aux data.length data (Nat.le_refl _)

lemma chunksOf_chunk_le_aux :
    ∀ (n : Nat) (data : List Nat), data.length ≤ n →
      ∀ c ∈ chunksOf data, c.length ≤ 0xFFFF := by
  intro n
  induction n with
  | zero =>
    intro data h c hc
    have hnil : data = [] := List.eq_nil_of_length_eq_zero (by omega)
    subst hnil
    rw [chunksOf] at hc
    simp at hc
  | succ n ih =>
    intro data h c hc
    rw [chunksOf] at hc
    by_cases hnil : data = []
    · rw [dif_pos hnil] at hc
      simp at hc
    · rw [dif_neg hnil] at hc
      have hpos : 0 < data.length := List.length_pos.mpr hnil
      rcases List.mem_cons.mp hc with hhead | htail
      · subst hhead
        have := List.length_take 0xFFFF data
        omega
      · exact ih (data.drop 0xFFFF) (by simp [List.length_drop]; omega) c htail

lemma chunksOf_chunk_le (data : List Nat) :
    ∀ c ∈ chunksOf data, c.length ≤ 0xFFFF :=
  chunksOf_chunk_le_aux data.length data (Nat.le_refl _)

lemma rawChunkBytes_eq_aux :
    ∀ (n : Nat) (nl data : List Nat), data.length ≤ n →
      rawChunkBytes nl data
        = ((chunksOf data).map (fun c => nl ++ u16le c.length ++ c)).flatten := by
  intro n
  induction n with
  | zero =>
    intro nl data h
    have hnil : data = [] := List.eq_nil_of_length_eq_zero (by omega)
    subst hnil
    rw [rawChunkBytes, chunksOf]
    simp
  | succ n ih =>
    intro nl data h
    rw [rawChunkBytes, chunksOf]
    by_cases hnil : data = []
    · simp [hnil]
    · rw [dif_neg hnil, dif_neg hnil]
      have hpos : 0 < data.length := List.length_pos.mpr hnil
      rw [List.map_cons, List.flatten_cons,
        ih nl (data.drop 0xFFFF) (by simp [List.length_drop]; omega)]

/-- The raw/zip emission exactly as the claim (and spec) word it:
identical to `emitRaw` except that every chunk of an oversized raw
blob is emitted as an independent record with its own raw extension
opcode.  Used only to compare the claim against the source behavior. -/
def emitRawClaim (w : ApxTlmWriter) (name data comp : List Nat) : ApxTlmWriter :=
  let nameLit := cachedLit name
  let zipped := u32be data.length ++ comp
  if zipped.length < data.length + 2 then
    { w with out := w.out ++ [extByte 11] ++ nameLit ++ u32le zipped.length ++ zipped }
  else if data.length > 0xFFFF then
    { w with
      out := w.out
        ++ ((chunksOf data).map
              (fun c => [extByte 10] ++ nameLit ++ u16le c.length ++ c)).flatten }
  else
    { w with out := w.out ++ [extByte 10] ++ nameLit ++ u16le data.length ++ data }


lemma chunksOf_nil : chunksOf [] = [] := by
  rw [chunksOf]
  simp

lemma chunksOf_replicate_two_chunks (n : Nat) (h3 : 0xFFFF < n) (h2 : n ≤ 2 * 0xFFFF) :
    chunksOf (List.replicate n (0 : Nat))
      = [List.replicate 0xFFFF 0, List.replicate (n - 0xFFFF) 0] := by
  rw [chunksOf, dif_neg (by simp; omega), List.take_replicate, List.drop_replicate]
  have hmin : min 0xFFFF n = 0xFFFF := by omega
  rw [hmin]
  rw [chunksOf, dif_neg (by simp; omega), List.take_replicate, List.drop_replicate]
  have hmin2 : min 0xFFFF (n - 0xFFFF) = n - 0xFFFF := by omega
  have hz : n - 0xFFFF - 0xFFFF = 0 := by omega
  rw [hmin2, hz]
  show (List.replicate 0xFFFF (0:Nat)) :: (List.replicate (n - 0xFFFF) 0)
      :: chunksOf (List.replicate 0 0) = _
  rw [List.replicate_zero, chunksOf_nil]


lemma emitRaw_zip_eq (w : ApxTlmWriter) (name data comp : List Nat)
    (h : (u32be data.length ++ comp).length < data.length + 2) :
    emitRaw w name data comp none
      = { w with
          out := w.out ++ [extByte 11] ++ cachedLit name
            ++ u32le (u32be data.length ++ comp).length ++ (u32be data.length ++ comp) } := by
  rw [emitRaw]
  simp only [if_pos h, List.append_assoc]

lemma emitRaw_rawBig_eq (w : ApxTlmWriter) (name data comp : List Nat)
    (h : ¬((u32be data.length ++ comp).length < data.length + 2))
    (hbig : data.length > 0xFFFF) :
    emitRaw w name data comp none
      = { w with out := w.out ++ [extByte 10] ++ rawChunkBytes (cachedLit name) data } := by
  rw [emitRaw]
  simp only [if_neg h, if_pos hbig, List.append_assoc]

lemma emitRaw_rawSmall_eq (w : ApxTlmWriter) (name data comp : List Nat)
    (h : ¬((u32be data.length ++ comp).length < data.length + 2))
    (hsmall : ¬(data.length > 0xFFFF)) :
    emitRaw w name data comp none
      = { w with
          out := w.out ++ [extByte 10] ++ cachedLit name ++ u16le data.length ++ data } := by
  rw [emitRaw]
  simp only [if_neg h, if_neg hsmall, List.append_assoc]

lemma emitRawClaim_rawBig_eq (w : ApxTlmWriter) (name data comp : List Nat)
    (h : ¬((u32be data.length ++ comp).length < data.length + 2))
    (hbig : data.length > 0xFFFF) :
    emitRawClaim w name data comp
      = { w with
          out := w.out
            ++ ((chunksOf data).map
                  (fun c => [extByte 10] ++ cachedLit name ++ u16le c.length ++ c)).flatten } := by
  rw [emitRawClaim]
  simp only [if_neg h, if_pos hbig]

lemma emitRaw_out_length_65537 :
    (emitRaw ⟨0, -1, [], [], []⟩ [97] (List.replicate 65537 0)
      (List.replicate 70000 0) none).out.length = 65548 := by
  have h : ¬((u32be (List.replicate 65537 (0:Nat)).length ++ List.replicate 70000 (0:Nat)).length
      < (List.replicate 65537 (0:Nat)).length + 2) := by
    simp only [List.length_append, List.length_replicate, u32be, List.length_reverse,
      length_leBytes]
    omega
  have hbig : (List.replicate 65537 (0:Nat)).length > 0xFFFF := by
    simp only [List.length_replicate]
    omega
  rw [emitRaw_rawBig_eq _ _ _ _ h hbig]
  dsimp only
  rw [rawChunkBytes_eq_aux (List.replicate 65537 (0:Nat)).length _ _ (Nat.le_refl _),
    chunksOf_replicate_two_chunks 65537 (by omega) (by omega)]
  simp only [List.map_cons, List.map_nil, List.flatten_cons, List.flatten_nil,
    List.length_append, List.length_replicate, List.length_cons, List.length_nil,
    cachedLit, cstr, u16le, length_leBytes]

lemma claimChunks_length_65537 :
    ((chunksOf (List.replicate 65537 (0:Nat))).map
        (fun c => [extByte 10] ++ cachedLit [97] ++ u16le c.length ++ c)).flatten.length
      = 65549 := by
  rw [chunksOf_replicate_two_chunks 65537 (by omega) (by omega)]
  simp only [List.map_cons, List.map_nil, List.flatten_cons, List.flatten_nil,
    List.length_append, List.length_replicate, List.length_cons, List.length_nil,
    cachedLit, cstr, u16le, length_leBytes]

lemma emitRawClaim_out_length_65537 :
    (emitRawClaim ⟨0, -1, [], [], []⟩ [97] (List.replicate 65537 0)
      (List.replicate 70000 0)).out.length = 65549 := by
  have h : ¬((u32be (List.replicate 65537 (0:Nat)).length ++ List.replicate 70000 (0:Nat)).length
      < (List.replicate 65537 (0:Nat)).length + 2) := by
    simp only [List.length_append, List.length_replicate, u32be, List.length_reverse,
      length_leBytes]
    omega
  have hbig : (List.replicate 65537 (0:Nat)).length > 0xFFFF := by
    simp only [List.length_replicate]
    omega
  rw [emitRawClaim_rawBig_eq _ _ _ _ h hbig]
  dsimp only
  rw [List.nil_append]
  exact claimChunks_length_65537

/-- C5 counterexample: for a 65537-byte raw blob with an incompressible
deflate candidate (so RAW is selected), the source writes the raw
extension opcode once before the chunk loop, while the claim's
per-chunk-opcode framing (`emitRawClaim`) produces a stream one byte
longer per extra chunk; at this input the two byte streams differ
(65548 vs 65549 bytes). -/
theorem emitRaw_chunk_opcode_counterexample :
    emitRaw ⟨0, -1, [], [], []⟩ [97] (List.replicate 65537 0) (List.replicate 70000 0) none
      ≠ emitRawClaim ⟨0, -1, [], [], []⟩ [97] (List.replicate 65537 0) (List.replicate 70000 0) := by
  intro heq
  have hA := emitRaw_out_length_65537
  rw [heq, emitRawClaim_out_length_65537] at hA
  exact absurd hA (by omega)

/-- C5 (amended): the zip record form is chosen iff the qCompressed
payload is strictly shorter than `data.length + 2`; otherwise, for
blobs over 0xFFFF bytes, a single raw extension opcode is written and
the data is split into consecutive chunks of at most 65535 bytes, each
written as (same literal name, u16 length, chunk bytes) but without an
opcode of its own; blobs of at most 0xFFFF bytes are a single raw
record; the chunks reassemble exactly to the original data. -/
theorem emitRaw_selection_and_chunking :
    (∀ (w : ApxTlmWriter) (name data comp : List Nat),
        (u32be data.length ++ comp).length < data.length + 2 →
        emitRaw w name data comp none
          = { w with out := w.out ++ [extByte 11] ++ cachedLit name
                ++ u32le (u32be data.length ++ comp).length ++ (u32be data.length ++ comp) })
    ∧ (∀ (w : ApxTlmWriter) (name data comp : List Nat),
        ¬((u32be data.length ++ comp).length < data.length + 2) →
        data.length > 0xFFFF →
        emitRaw w name data comp none
          = { w with out := w.out ++ [extByte 10] ++ rawChunkBytes (cachedLit name) data })
    ∧ (∀ (w : ApxTlmWriter) (name data comp : List Nat),
        ¬((u32be data.length ++ comp).length < data.length + 2) →
        ¬(data.length > 0xFFFF) →
        emitRaw w name data comp none
          = { w with
              out := w.out ++ [extByte 10] ++ cachedLit name ++ u16le data.length ++ data })
    ∧ (∀ data : List Nat, (chunksOf data).flatten = data)
    ∧ (∀ data : List Nat, ∀ c ∈ chunksOf data, c.length ≤ 0xFFFF)
    ∧ (∀ nl data : List Nat,
        rawChunkBytes nl data
          = ((chunksOf data).map (fun c => nl ++ u16le c.length ++ c)).flatten) := by
  exact ⟨emitRaw_zip_eq, emitRaw_rawBig_eq, emitRaw_rawSmall_eq, chunksOf_flatten,
    chunksOf_chunk_le,
    fun nl data => rawChunkBytes_eq_aux data.length nl data (Nat.le_refl _)⟩

/-- Witness for C5's amended theorem: a 3-byte constant blob with a
shorter candidate picks zip; a 2-byte blob with a longer candidate is
a single raw record. -/
theorem emitRaw_selection_and_chunking_witness :
    emitRaw ⟨0, -1, [], [], []⟩ [97] [0, 0, 0] [] none
        = { declaredFields := 0, lastWidx := -1, lastDown := [], lastUp := [],
            out := ([] : List Nat) ++ [extByte 11] ++ cachedLit [97]
              ++ u32le (u32be 3 ++ []).length ++ (u32be 3 ++ []) }
      ∧ emitRaw ⟨0, -1, [], [], []⟩ [97] [1, 2] [9, 9, 9] none
        = { declaredFields := 0, lastWidx := -1, lastDown := [], lastUp := [],
            out := ([] : List Nat) ++ [extByte 10] ++ cachedLit [97] ++ u16le 2 ++ [1, 2] } :=
  ⟨emitRaw_selection_and_chunking.1 ⟨0, -1, [], [], []⟩ [97] [0, 0, 0] []
      (by with_unfolding_all decide),
   emitRaw_selection_and_chunking.2.2.1 ⟨0, -1, [], [], []⟩ [97] [1, 2] [9, 9, 9]
      (by with_unfolding_all decide) (by with_unfolding_all decide)⟩

/-- Witness for C4's amended theorem: 1 is finite and round-trips, so
it is encoded f16; NaN is not encoded f16, so it is encoded f32. -/
theorem chooseFloatSpec_f16_iff_witness :
    (chooseFloatSpec (.num 1)).1 = 6 ∧ (chooseFloatSpec .nan).1 = 7 :=
  ⟨(chooseFloatSpec_f16_iff (.num 1)).1.mpr
      ⟨by with_unfolding_all decide, by with_unfolding_all decide⟩,
   (chooseFloatSpec_f16_iff .nan).2 (by with_unfolding_all decide)⟩
